import Mathlib

/-!
Verification of the StudyBuddy retrieval and session-cache subsystem.

Shallow embedding of:
  * `src/representation/vector_store.py` (`VectorStore`)
  * `src/retrieval/hybrid_retriever.py` (`HybridRetriever`)
  * `src/retrieval/reranker.py` (`Reranker`)
  * `mcp_server/session_manager.py` (`SessionManager`, `DocumentSession`)

Numeric scores are modelled over `ℚ` (the Python code computes with floats;
the algebraic claims are about the ideal arithmetic).  External collaborators
(the FAISS search kernels, the BM25 library, the cross-encoder model, SHA-256,
file contents) are modelled as explicit parameters.
-/

namespace StudyBuddy

/-! ## Vector store (`src/representation/vector_store.py`) -/

/-- A raw embedding vector (one numpy row), modelled over `ℚ`. -/
abbrev Vec := List ℚ

/-- The state of the FAISS index backing a `VectorStore`: either the initial
exact flat inner-product index (`faiss.IndexFlatIP`), or the clustered IVF
index (`faiss.IndexIVFFlat`) created by `_upgrade_to_ivf`, carrying its
cluster count `nlist` and the vectors it was trained on (`trainSet = []`
means the index was never trained). -/
inductive IndexKind where
  | flat
  | ivf (nlist : Nat) (trainSet : List Vec)
  deriving DecidableEq

/-- The backend index: its kind plus the stored vectors in insertion order;
position `i` of `vecs` holds the vector the backend reports under id `i`. -/
structure FaissIndex where
  kind : IndexKind
  vecs : List Vec
  deriving DecidableEq

/-- `index.ntotal`. -/
def FaissIndex.ntotal (i : FaissIndex) : Nat := i.vecs.length

/-- Errors raised inside the FAISS library. -/
inductive FaissErr where
  | untrainedIndex
  deriving DecidableEq

/-- `faiss.Index.add`: a flat index always accepts vectors; an IVF index
accepts them only once trained (`_upgrade_to_ivf` skips training when there
are no existing vectors, leaving the new IVF index untrained). -/
def FaissIndex.faissAdd (i : FaissIndex) (rows : List Vec) :
    Except FaissErr FaissIndex :=
  match i.kind with
  | .flat => .ok { i with vecs := i.vecs ++ rows }
  | .ivf _ trainSet =>
      if trainSet = [] then .error .untrainedIndex
      else .ok { i with vecs := i.vecs ++ rows }

/-- A numpy array passed to `VectorStore.add`: either a 1-D vector or a
rectangular 2-D batch of `rows`, each of length `cols`. -/
inductive NpArray where
  | one (v : Vec)
  | two (rows : List Vec) (cols : Nat)
  deriving DecidableEq

/-- `len(embeddings)`: rows of a 2-D array, entries of a 1-D one. -/
def NpArray.len : NpArray → Nat
  | .one v => v.length
  | .two rows _ => rows.length

/-- The rows that reach the backend on the success path of `add`. -/
def NpArray.rowsOf : NpArray → List Vec
  | .one _ => []
  | .two rows _ => rows

/-- `VectorStore` state: fixed dimension, backend index, and the parallel
`self.documents` list.  `Doc` stands for the Python document dicts. -/
structure VectorStore (Doc : Type) where
  dimension : Nat
  index : FaissIndex
  documents : List Doc

/-- `VectorStore.__init__` + `_initialize_index`: empty flat index. -/
def VectorStore.init (Doc : Type) (dimension : Nat) : VectorStore Doc :=
  { dimension := dimension
    index := { kind := .flat, vecs := [] }
    documents := [] }

/-- The `ValueError`s `VectorStore.add` can raise, plus FAISS-level failure. -/
inductive AddErr where
  | lenMismatch
  | notTwoD
  | dimMismatch
  | faiss (e : FaissErr)
  deriving DecidableEq

/-- The spec's `ShapeMismatch` family: the three contract checks at the top
of `add` (length mismatch, non-2-D input, wrong second dimension). -/
def AddErr.isShapeMismatch : AddErr → Bool
  | .lenMismatch => true
  | .notTwoD => true
  | .dimMismatch => true
  | .faiss _ => false

/-- `VectorStore._upgrade_to_ivf(n_vectors)`: `n_list = max(int(sqrt(n)), 100)`;
if the current index is non-empty, extract every stored vector with
`reconstruct(i)` for `i = 0 .. ntotal-1`, train the new IVF index on them and
re-add them; otherwise leave the new IVF index empty and untrained. -/
def VectorStore.upgradeToIvf {Doc : Type} (s : VectorStore Doc) (nVectors : Nat) :
    FaissIndex :=
  let nList := max (Nat.sqrt nVectors) 100
  if 0 < s.index.ntotal then
    let vectors := (List.range s.index.ntotal).map fun i => s.index.vecs.getD i []
    { kind := .ivf nList vectors, vecs := vectors }
  else
    { kind := .ivf nList [], vecs := [] }

/-- `VectorStore.add(embeddings, documents)`.  An error carries the store as
it stands when the exception leaves the method: the contract checks raise
before any mutation, while a FAISS-level failure happens after `self.index`
was already replaced by the IVF upgrade. -/
def VectorStore.add {Doc : Type} (s : VectorStore Doc) (embeddings : NpArray)
    (documents : List Doc) :
    Except (AddErr × VectorStore Doc) (VectorStore Doc) :=
  if embeddings.len ≠ documents.length then .error (.lenMismatch, s)
  else if embeddings.len = 0 then .ok s
  else
    match embeddings with
    | .one _ => .error (.notTwoD, s)
    | .two rows cols =>
        if cols ≠ s.dimension then .error (.dimMismatch, s)
        else
          let totalVectors := s.index.ntotal + rows.length
          let index1 :=
            if totalVectors ≥ 1000 ∧ s.index.kind = .flat then
              s.upgradeToIvf totalVectors
            else s.index
          match index1.faissAdd rows with
          | .error e => .error (.faiss e, { s with index := index1 })
          | .ok index2 =>
              .ok { s with index := index2, documents := s.documents ++ documents }

/-- The result loop of `VectorStore.search`: keep a `(document, score)` pair
only for backend rows whose index satisfies `0 ≤ idx < len(documents)`,
silently dropping everything else (e.g. the `-1` padding an IVF index emits). -/
def searchClip {Doc : Type} (documents : List Doc) (raw : List (ℚ × Int)) :
    List (Doc × ℚ) :=
  raw.filterMap fun p =>
    if 0 ≤ p.2 ∧ p.2 < (documents.length : Int) then
      (documents.get? p.2.toNat).map fun d => (d, p.1)
    else none

/-- `VectorStore.search(query_embedding, top_k)`, parameterised by the raw
`(score, index)` rows the backend returns for a requested neighbour count
(the FAISS search kernel — exact for flat, approximate with `-1` padding for
IVF — is external library code).  Empty index short-circuits to `[]`;
otherwise the backend is asked for `min(top_k, ntotal)` neighbours. -/
def VectorStore.search {Doc : Type} (s : VectorStore Doc)
    (backend : Nat → List (ℚ × Int)) (topK : Nat) : List (Doc × ℚ) :=
  if s.index.ntotal = 0 then []
  else searchClip s.documents (backend (min topK s.index.ntotal))

/-- Run a sequence of `add` calls, keeping the state an exception leaves
behind when a call fails. -/
def VectorStore.applyAdds {Doc : Type} (s : VectorStore Doc)
    (ops : List (NpArray × List Doc)) : VectorStore Doc :=
  ops.foldl (fun st op =>
    match st.add op.1 op.2 with
    | .ok s2 => s2
    | .error es => es.2) s

/-! ## Hybrid retriever (`src/retrieval/hybrid_retriever.py`)

A retrieved document is identified by its position in
`vector_store.documents`; both signals hand out elements of that list, so
Python's `id(doc)` coincides with this position.  The two retrieval signals
themselves (`_vector_retrieve` = embed + FAISS search, `_bm25_retrieve` =
`rank_bm25` scores + argsort) call external libraries and are passed in as
functions from the requested candidate count to `(doc, score)` rows. -/

/-- `HybridRetriever` configuration state. -/
structure HybridRetriever where
  hybridEnabled : Bool
  vectorWeight : ℚ
  bm25Weight : ℚ
  topK : Nat
  /-- Whether `self.bm25` is non-`None` (the BM25 index was built). -/
  bm25Built : Bool

/-- `HybridRetriever._normalize_scores`: `[]` for empty input, uniform `1.0`
when all scores are equal, otherwise `(s - min) / (max - min)` per entry. -/
def normalizeScores (scores : List ℚ) : List ℚ :=
  match scores with
  | [] => []
  | s0 :: rest =>
      let minScore := rest.foldl min s0
      let maxScore := rest.foldl max s0
      if maxScore = minScore then List.replicate (s0 :: rest).length 1
      else (s0 :: rest).map fun s => (s - minScore) / (maxScore - minScore)

/-- One `score_map` entry: document id, `vector_score`, `bm25_score`. -/
abbrev ScoreEntry := Nat × ℚ × ℚ

/-- `score_map[doc_id] = {vector_score: v, bm25_score: 0.0}` on an
insertion-ordered association list (dicts preserve insertion order:
overwriting keeps the original position, a new key is appended). -/
def setVecScore (m : List ScoreEntry) (d : Nat) (v : ℚ) : List ScoreEntry :=
  match m with
  | [] => [(d, v, 0)]
  | e :: es => if e.1 = d then (d, v, 0) :: es else e :: setVecScore es d v

/-- `score_map[doc_id]['bm25_score'] = b` when the key is present, else
append a fresh entry with `vector_score = 0.0`. -/
def setBm25Score (m : List ScoreEntry) (d : Nat) (b : ℚ) : List ScoreEntry :=
  match m with
  | [] => [(d, 0, b)]
  | e :: es => if e.1 = d then (e.1, e.2.1, b) :: es else e :: setBm25Score es d b

/-- The `score_map` built by `_combine_results`: normalize each signal's
scores, walk the vector rows, then the BM25 rows. -/
def buildScoreMap (vectorResults bm25Results : List (Nat × ℚ)) : List ScoreEntry :=
  let vectorScores := normalizeScores (vectorResults.map (·.2))
  let bm25Scores := normalizeScores (bm25Results.map (·.2))
  let m1 := (vectorResults.zip vectorScores).foldl
    (fun m p => setVecScore m p.1.1 p.2) []
  (bm25Results.zip bm25Scores).foldl (fun m p => setBm25Score m p.1.1 p.2) m1

/-- The fusion formula of `_combine_results`:
`vector_weight * vector_score + bm25_weight * bm25_score`. -/
def fuseScore (vectorWeight bm25Weight v b : ℚ) : ℚ :=
  vectorWeight * v + bm25Weight * b

/-- Descending-by-score order used by `combined.sort(key=..., reverse=True)`;
`List.insertionSort` with this relation is stable exactly like Python's sort. -/
def scoreGE {α : Type} (a b : α × ℚ) : Prop := b.2 ≤ a.2

instance {α : Type} : DecidableRel (scoreGE (α := α)) :=
  fun a b => inferInstanceAs (Decidable (b.2 ≤ a.2))

instance {α : Type} : IsTotal (α × ℚ) scoreGE :=
  ⟨fun a b => le_total b.2 a.2⟩

instance {α : Type} : IsTrans (α × ℚ) scoreGE :=
  ⟨fun _ _ _ h1 h2 => le_trans h2 h1⟩

/-- `HybridRetriever._combine_results`. -/
def HybridRetriever.combineResults (r : HybridRetriever)
    (vectorResults bm25Results : List (Nat × ℚ)) : List (Nat × ℚ) :=
  let combined := (buildScoreMap vectorResults bm25Results).map fun e =>
    (e.1, fuseScore r.vectorWeight r.bm25Weight e.2.1 e.2.2)
  List.insertionSort scoreGE combined

/-- `HybridRetriever.retrieve(query, top_k)`, parameterised by the two signal
functions. -/
def HybridRetriever.retrieve (r : HybridRetriever)
    (vectorSignal bm25Signal : Nat → List (Nat × ℚ)) (topK : Option Nat) :
    List (Nat × ℚ) :=
  let k := topK.getD r.topK
  if ¬ r.hybridEnabled ∨ ¬ r.bm25Built then vectorSignal k
  else (r.combineResults (vectorSignal (k * 2)) (bm25Signal (k * 2))).take k

/-- Keys of an association list / result list. -/
def keysOf (l : List (Nat × ℚ)) : List Nat := l.map (·.1)

/-- Score a signal assigned to document `d`, defaulting to `0` when the
signal did not retrieve `d` (first occurrence; unique under `Nodup` keys). -/
def lookupScore (l : List (Nat × ℚ)) (d : Nat) : ℚ :=
  (( l.find? fun p => p.1 = d).map (·.2)).getD 0

/-- A signal's rows paired with their normalized scores. -/
def withNormalized (l : List (Nat × ℚ)) : List (Nat × ℚ) :=
  (l.zip (normalizeScores (l.map (·.2)))).map fun p => (p.1.1, p.2)

/-! ## Reranker (`src/retrieval/reranker.py`)

The cross-encoder model is external; its per-candidate scores are passed in
as `modelScores` (the list `self.model.predict(pairs)` would return, one
score per input candidate). -/

/-- `Reranker` configuration state (`enabled`, configured default `top_m`). -/
structure Reranker where
  enabled : Bool
  topM : Nat

/-- `Reranker.rerank(query, documents, top_m)`.  Mirrors the Python control
flow exactly: the early return `documents[:top_m] if top_m else documents`
treats `top_m = None` and `top_m = 0` alike (both falsy); only the enabled
non-empty path substitutes the configured default for a missing `top_m`. -/
def Reranker.rerank {α : Type} (r : Reranker) (documents : List (α × ℚ))
    (topM : Option Nat) (modelScores : List ℚ) : List (α × ℚ) :=
  if ¬ r.enabled ∨ documents.isEmpty then
    match topM with
    | some m => if m ≠ 0 then documents.take m else documents
    | none => documents
  else
    let m := topM.getD r.topM
    let reranked := List.zipWith (fun p sc => (p.1, sc)) documents modelScores
    (List.insertionSort scoreGE reranked).take m

/-! ## Session manager (`mcp_server/session_manager.py`)

File contents, SHA-256 and the ingestion services are external; they enter
through `SMEnv`.  The on-disk cache is modelled as the set of content hashes
whose cache directory holds a persisted index (`<hash>/index.faiss`), which
is exactly what `get_or_create_session` tests for a cache hit.  The pipeline
object held by a session is opaque here; ingestion work is observed through
`ingestCount`. -/

/-- `DocumentSession` (pipeline object elided; `fileType` is the
`metadata['file_type']` entry `process_document` writes). -/
structure DocumentSession where
  file_id : String
  filepath : String
  file_hash : String
  processed : Bool
  fileType : Option String
  deriving DecidableEq

/-- `SessionManager` state plus instrumentation counters: `ingestCount`
counts `ingest_pdf`/`ingest_audio` invocations, `hashCount` counts
`_compute_file_hash` invocations. -/
structure SMState where
  sessions : List (String × DocumentSession)
  disk : List String
  ingestCount : Nat
  hashCount : Nat
  deriving DecidableEq

/-- External world: file bytes per path, the SHA-256 digest function, and
whether the ingestion service succeeds on a given path. -/
structure SMEnv where
  content : String → String
  sha256 : String → String
  ingestOk : String → Bool

/-- `self.sessions[file_id]` lookup. -/
def lookupSession (sessions : List (String × DocumentSession)) (fid : String) :
    Option DocumentSession :=
  (sessions.find? fun p => p.1 = fid).map (·.2)

/-- `self.sessions[file_id] = s`: overwrite in place or append. -/
def storeSession (sessions : List (String × DocumentSession)) (fid : String)
    (s : DocumentSession) : List (String × DocumentSession) :=
  match sessions with
  | [] => [(fid, s)]
  | e :: es => if e.1 = fid then (fid, s) :: es else e :: storeSession es fid s

/-- Record a content hash as having a persisted index on disk. -/
def persistHash (h : String) (disk : List String) : List String :=
  if h ∈ disk then disk else h :: disk

/-- `Path(filepath).suffix.lower()` for ordinary file names: the part of the
last path component from its last dot on (empty when there is no dot),
lower-cased. -/
def fileSuffix (p : String) : String :=
  let base := (p.data.reverse.takeWhile fun c => c ≠ '/').reverse
  if base.contains '.' then
    let ext := (base.reverse.takeWhile fun c => c ≠ '.').reverse
    String.mk (('.' :: ext).map Char.toLower)
  else ""

/-- The extension dispatch of `process_document`: `.pdf` goes to the PDF
ingestion path, `.mp3/.wav/.m4a/.mp4` to the audio path, anything else is
unsupported. -/
def extFileType (sfx : String) : Option String :=
  if sfx = ".pdf" then some "pdf"
  else if sfx = ".mp3" ∨ sfx = ".wav" ∨ sfx = ".m4a" ∨ sfx = ".mp4" then some "audio"
  else none

/-- `SessionManager.get_or_create_session(file_id, filepath)`. -/
def getOrCreateSession (env : SMEnv) (st : SMState) (fid fpath : String) :
    SMState × DocumentSession :=
  match lookupSession st.sessions fid with
  | some s => (st, s)
  | none =>
      let h := env.sha256 (env.content fpath)
      let st1 := { st with hashCount := st.hashCount + 1 }
      let hit := h ∈ st1.disk
      let s : DocumentSession :=
        { file_id := fid, filepath := fpath, file_hash := h
          processed := hit, fileType := none }
      ({ st1 with sessions := storeSession st1.sessions fid s }, s)

/-- The exceptions `process_document` can surface. -/
inductive SMErr where
  | noSession
  | unsupportedFileType
  | ingestFailed
  deriving DecidableEq

/-- `SessionManager.process_document(session)`.  The session is addressed by
its `file_id` because the Python argument aliases the entry of
`self.sessions` (mutating one mutates the other).  Already-processed
sessions return immediately; otherwise the extension dispatch either raises
`UnsupportedFileType` before any work, or runs ingestion — only after
ingestion succeeds are the index persisted under the content-hash directory
and `processed` flipped to `true`. -/
def processDocument (env : SMEnv) (st : SMState) (fid : String) :
    SMState × Option SMErr :=
  match lookupSession st.sessions fid with
  | none => (st, some .noSession)
  | some s =>
      if s.processed then (st, none)
      else
        match extFileType (fileSuffix s.filepath) with
        | none => (st, some .unsupportedFileType)
        | some ftype =>
            let st1 := { st with ingestCount := st.ingestCount + 1 }
            if env.ingestOk s.filepath then
              let s1 := { s with processed := true, fileType := some ftype }
              ({ st1 with
                  sessions := storeSession st1.sessions fid s1
                  disk := persistHash s.file_hash st1.disk }, none)
            else (st1, some .ingestFailed)

/-- One atomic step of one of two client requests, each request being
`get_or_create_session` followed by `process_document` on its own file. -/
inductive SMAct where
  | create1
  | create2
  | processOne
  | processTwo
  deriving DecidableEq

/-- Run an interleaving of the steps of two requests
`(fid1, path1)` and `(fid2, path2)`. -/
def runActs (env : SMEnv) (fid1 path1 fid2 path2 : String) (st : SMState)
    (acts : List SMAct) : SMState :=
  acts.foldl (fun s a =>
    match a with
    | .create1 => (getOrCreateSession env s fid1 path1).1
    | .create2 => (getOrCreateSession env s fid2 path2).1
    | .processOne => (processDocument env s fid1).1
    | .processTwo => (processDocument env s fid2).1) st

/-- A concrete external world for witness scenarios: both file paths hold the
same bytes, SHA-256 is observed only through equalities so any digest
function serves, and ingestion always succeeds. -/
def demoEnv : SMEnv :=
  { content := fun _ => "SAMEBYTES", sha256 := fun c => c, ingestOk := fun _ => true }

/-- A fresh `SessionManager` (no sessions, empty cache directory). -/
def emptySM : SMState :=
  { sessions := [], disk := [], ingestCount := 0, hashCount := 0 }

/-- First `find?` entry for a document id in the `score_map`. -/
def getEntry (m : List ScoreEntry) (d : Nat) : Option ScoreEntry :=
  m.find? fun e => e.1 = d

/-- Document ids of the `score_map` entries, in insertion order. -/
def keysEnt (m : List ScoreEntry) : List Nat := m.map (·.1)

/-! ## Theorems -/

/-- C5 counterexample: on the input `[5, 3, 3, 0]` the code's min-max
normalization does not produce the `[1.0, 0.5, 0.5, 0.0]` the spec states
(the middle entries are `(3 - 0) / (5 - 0) = 0.6`). -/
theorem normalizeScores_spec_counterexample :
    ¬ normalizeScores [5, 3, 3, 0] = [1, 1/2, 1/2, 0] := by
  norm_num [normalizeScores]

/-- C5 (amended): min-max normalization maps `[5, 3, 3, 0]` to
`[1.0, 0.6, 0.6, 0.0]`, and maps the all-equal list `[2, 2, 2]` to uniform
`1.0` without dividing by zero. -/
theorem normalizeScores_eval :
    normalizeScores [5, 3, 3, 0] = [1, 3/5, 3/5, 0] ∧
    normalizeScores [2, 2, 2] = [1, 1, 1] := by
  constructor
  · norm_num [normalizeScores]
  · norm_num [normalizeScores, List.replicate]

/-- C8 counterexample: with reranking disabled and a configured `top_m = 1`,
`rerank(query, docs)` with `top_m` omitted returns the whole two-element
candidate list instead of `docs[:1]`, and `rerank(query, docs, 0)` returns
the whole list instead of `docs[:0] = []` (Python's `if top_m` treats both
`None` and `0` as falsy before the configured default is substituted). -/
theorem rerank_disabled_counterexample :
    ¬ Reranker.rerank { enabled := false, topM := 1 } [((0 : Nat), (1 : ℚ)), (1, 2)]
        none [] = ([((0 : Nat), (1 : ℚ)), (1, 2)].take 1) ∧
    ¬ Reranker.rerank { enabled := false, topM := 1 } [((0 : Nat), (1 : ℚ)), (1, 2)]
        (some 0) [] = ([((0 : Nat), (1 : ℚ)), (1, 2)].take 0) := by
  constructor <;> decide

/-- C8 (amended): when reranking is disabled or the candidate list is empty,
`rerank` returns `docs[:top_m]` unchanged in order and score whenever
`top_m` is given and non-zero; when `top_m` is omitted or `0` it returns the
whole input unchanged (the configured default is not applied on this path). -/
theorem rerank_identity_fallback {α : Type} (r : Reranker) (docs : List (α × ℚ))
    (scores : List ℚ) (h : r.enabled = false ∨ docs = []) :
    (∀ m : Nat, m ≠ 0 → r.rerank docs (some m) scores = docs.take m) ∧
    r.rerank docs none scores = docs ∧
    r.rerank docs (some 0) scores = docs := by
  have hc : ¬ r.enabled = true ∨ docs.isEmpty = true := by
    rcases h with h | h
    · exact Or.inl (by simp [h])
    · exact Or.inr (by simp [h])
  refine ⟨fun m hm => ?_, ?_, ?_⟩
  · simp only [Reranker.rerank, if_pos hc]
    simp [hm]
  · simp only [Reranker.rerank, if_pos hc]
  · simp only [Reranker.rerank, if_pos hc]
    simp

/-- C8 witness: the amended fallback evaluated on a concrete disabled
reranker and two candidates. -/
theorem rerank_identity_fallback_witness :
    Reranker.rerank { enabled := false, topM := 3 } [((0 : Nat), (5 : ℚ)), (1, 4)]
      (some 1) [] = [((0 : Nat), (5 : ℚ))] :=
  (rerank_identity_fallback { enabled := false, topM := 3 }
    [((0 : Nat), (5 : ℚ)), (1, 4)] [] (Or.inl rfl)).1 1 (by decide)

/-- C7: the session manager has no per-hash lock or single-flight guard.
Interleaving two requests for files with identical (previously uncached)
bytes as `create₁, create₂, process₁, process₂` — a legal schedule of two
concurrent callers, each running `get_or_create_session` before its
`process_document` — executes ingestion twice for one content hash, and the
two sessions indeed carry the same hash. -/
theorem sessionManager_double_ingest_race :
    (runActs demoEnv "f1" "a.pdf" "f2" "b.pdf" emptySM
        [.create1, .create2, .processOne, .processTwo]).ingestCount = 2 ∧
    ((getOrCreateSession demoEnv emptySM "f1" "a.pdf").2).file_hash =
      ((getOrCreateSession demoEnv
          (getOrCreateSession demoEnv emptySM "f1" "a.pdf").1 "f2" "b.pdf").2).file_hash := by
  constructor <;> decide

/-! ### Vector store lemmas -/

/-- Reconstructing positions `0 .. len-1` returns the stored list itself. -/
theorem map_getD_range {α : Type} (l : List α) (d : α) :
    (List.range l.length).map (fun i => l.getD i d) = l := by
  induction l with
  | nil => simp
  | cons x xs ih =>
      simp only [List.length_cons, List.range_succ_eq_map, List.map_cons,
        List.getD_cons_zero, List.map_map, Function.comp_def, List.getD_cons_succ]
      exact congrArg (x :: ·) ih

/-- The IVF rebuild repopulates the new index with exactly the old vectors,
in order: nothing is lost or reordered. -/
theorem upgradeToIvf_vecs {Doc : Type} (s : VectorStore Doc) (n : Nat) :
    (s.upgradeToIvf n).vecs = s.index.vecs := by
  unfold VectorStore.upgradeToIvf
  by_cases h : 0 < s.index.ntotal
  · simp only [if_pos h]
    exact map_getD_range _ _
  · simp only [if_neg h]
    have hz : s.index.vecs.length = 0 := Nat.eq_zero_of_not_pos h
    exact (List.length_eq_zero.mp hz).symm

/-- On a non-empty index the IVF rebuild trains the new index on all the
existing vectors and sizes it with `max(int(sqrt(n)), 100)` clusters. -/
theorem upgradeToIvf_kind {Doc : Type} (s : VectorStore Doc) (n : Nat)
    (h : 0 < s.index.ntotal) :
    (s.upgradeToIvf n).kind = .ivf (max (Nat.sqrt n) 100) s.index.vecs := by
  unfold VectorStore.upgradeToIvf
  simp only [if_pos h]
  exact congrArg (IndexKind.ivf _) (map_getD_range _ _)

/-- A successful backend `add` appends the rows and keeps the index kind. -/
theorem faissAdd_ok {i i2 : FaissIndex} {rows : List Vec}
    (h : i.faissAdd rows = .ok i2) : i2.vecs = i.vecs ++ rows ∧ i2.kind = i.kind := by
  rcases i with ⟨kind, vecs⟩
  cases kind with
  | flat =>
      simp only [FaissIndex.faissAdd] at h
      cases h
      exact ⟨rfl, rfl⟩
  | ivf nlist trainSet =>
      simp only [FaissIndex.faissAdd] at h
      by_cases ht : trainSet = []
      · rw [if_pos ht] at h; cases h
      · rw [if_neg ht] at h; cases h; exact ⟨rfl, rfl⟩

/-- Characterization of a successful `add`: exactly the given documents are
appended to `self.documents` and the given rows to the backend vectors. -/
theorem add_ok_state {Doc : Type} {s s' : VectorStore Doc} {emb : NpArray}
    {docs : List Doc} (h : s.add emb docs = .ok s') :
    s'.documents = s.documents ++ docs ∧
    s'.index.vecs = s.index.vecs ++ emb.rowsOf ∧
    s'.dimension = s.dimension := by
  unfold VectorStore.add at h
  by_cases h1 : emb.len ≠ docs.length
  · rw [if_pos h1] at h; cases h
  · rw [if_neg h1] at h
    push_neg at h1
    by_cases h2 : emb.len = 0
    · rw [if_pos h2] at h
      cases h
      have hd : docs = [] := List.length_eq_zero.mp (h1 ▸ h2)
      have hr : emb.rowsOf = [] := by
        cases emb with
        | one v => rfl
        | two rows cols => exact List.length_eq_zero.mp h2
      simp [hd, hr]
    · rw [if_neg h2] at h
      cases emb with
      | one v => cases h
      | two rows cols =>
          dsimp only at h
          by_cases h3 : cols ≠ s.dimension
          · rw [if_pos h3] at h; cases h
          · rw [if_neg h3] at h
            rcases hfa : FaissIndex.faissAdd
                (if s.index.ntotal + rows.length ≥ 1000 ∧ s.index.kind = .flat then
                  s.upgradeToIvf (s.index.ntotal + rows.length)
                else s.index) rows with e | index2
            · rw [hfa] at h; cases h
            · rw [hfa] at h
              cases h
              rcases faissAdd_ok hfa with ⟨hv, _⟩
              refine ⟨rfl, ?_, rfl⟩
              rw [hv]
              by_cases hup : s.index.ntotal + rows.length ≥ 1000 ∧ s.index.kind = .flat
              · rw [if_pos hup, upgradeToIvf_vecs]
                rfl
              · rw [if_neg hup]
                rfl

/-- Characterization of a failed `add`: the state the exception leaves
behind has the same documents and the same backend vectors; for the three
`ShapeMismatch` contract errors it is the unmodified input state. -/
theorem add_error_state {Doc : Type} {s s' : VectorStore Doc} {emb : NpArray}
    {docs : List Doc} {e : AddErr} (h : s.add emb docs = .error (e, s')) :
    s'.documents = s.documents ∧ s'.index.vecs = s.index.vecs ∧
    (e.isShapeMismatch = true → s' = s) := by
  unfold VectorStore.add at h
  by_cases h1 : emb.len ≠ docs.length
  · rw [if_pos h1] at h
    cases h
    exact ⟨rfl, rfl, fun _ => rfl⟩
  · rw [if_neg h1] at h
    by_cases h2 : emb.len = 0
    · rw [if_pos h2] at h; cases h
    · rw [if_neg h2] at h
      cases emb with
      | one v =>
          cases h
          exact ⟨rfl, rfl, fun _ => rfl⟩
      | two rows cols =>
          dsimp only at h
          by_cases h3 : cols ≠ s.dimension
          · rw [if_pos h3] at h
            cases h
            exact ⟨rfl, rfl, fun _ => rfl⟩
          · rw [if_neg h3] at h
            rcases hfa : FaissIndex.faissAdd
                (if s.index.ntotal + rows.length ≥ 1000 ∧ s.index.kind = .flat then
                  s.upgradeToIvf (s.index.ntotal + rows.length)
                else s.index) rows with e2 | index2
            · rw [hfa] at h
              cases h
              refine ⟨rfl, ?_, fun hsm => by cases hsm⟩
              by_cases hup : s.index.ntotal + rows.length ≥ 1000 ∧ s.index.kind = .flat
              · simp only [if_pos hup]
                exact upgradeToIvf_vecs s _
              · simp only [if_neg hup]
            · rw [hfa] at h; cases h

/-- Every pair produced by the result loop of `search` comes from a backend
row whose index is in bounds for `documents` and names the document stored
at exactly that position. -/
theorem mem_searchClip {Doc : Type} {documents : List Doc} {raw : List (ℚ × Int)}
    {d : Doc} {sc : ℚ} (h : (d, sc) ∈ searchClip documents raw) :
    ∃ i : Nat, i < documents.length ∧ documents.get? i = some d ∧
      (sc, (i : Int)) ∈ raw := by
  unfold searchClip at h
  rcases List.mem_filterMap.mp h with ⟨p, hp, he⟩
  by_cases hb : 0 ≤ p.2 ∧ p.2 < (documents.length : Int)
  · rw [if_pos hb] at he
    rcases Option.map_eq_some'.mp he with ⟨dd, hget, heq⟩
    have hd : dd = d := congrArg Prod.fst heq
    have hs : p.1 = sc := congrArg Prod.snd heq
    refine ⟨p.2.toNat, by omega, hd ▸ hget, ?_⟩
    have hi : (p.2.toNat : Int) = p.2 := by omega
    rw [hi, hs.symm]
    exact hp
  · rw [if_neg hb] at he
    cases he

/-- C3: `add` is all-or-nothing on its preconditions.  A length mismatch,
a non-2-D input, or a wrong second dimension each fail with the
corresponding `ShapeMismatch` error, and every `ShapeMismatch` failure
leaves the store exactly as it was; an empty input is a no-op; a successful
call appends exactly the given documents and vectors. -/
theorem add_all_or_nothing {Doc : Type} (s : VectorStore Doc) (emb : NpArray)
    (docs : List Doc) :
    (emb.len ≠ docs.length → s.add emb docs = .error (.lenMismatch, s)) ∧
    (emb.len = docs.length → emb.len = 0 → s.add emb docs = .ok s) ∧
    (∀ v : Vec, emb = .one v → emb.len = docs.length → emb.len ≠ 0 →
      s.add emb docs = .error (.notTwoD, s)) ∧
    (∀ rows cols, emb = .two rows cols → emb.len = docs.length → emb.len ≠ 0 →
      cols ≠ s.dimension → s.add emb docs = .error (.dimMismatch, s)) ∧
    (∀ e s', s.add emb docs = .error (e, s') → e.isShapeMismatch = true → s' = s) ∧
    (∀ s', s.add emb docs = .ok s' →
      s'.documents = s.documents ++ docs ∧ s'.index.vecs = s.index.vecs ++ emb.rowsOf) := by
  refine ⟨fun h1 => ?_, fun h1 h2 => ?_, fun v hv h1 h2 => ?_,
    fun rows cols hrc h1 h2 h3 => ?_, fun e s' h => (add_error_state h).2.2,
    fun s' h => ⟨(add_ok_state h).1, (add_ok_state h).2.1⟩⟩
  · unfold VectorStore.add
    rw [if_pos h1]
  · unfold VectorStore.add
    rw [if_neg (by omega), if_pos h2]
  · subst hv
    unfold VectorStore.add
    rw [if_neg (by omega), if_neg h2]
  · subst hrc
    unfold VectorStore.add
    rw [if_neg (by omega), if_neg h2]
    dsimp only
    rw [if_pos h3]

/-- C3 witness: a dimension-mismatched batch fails with a shape error and
leaves a concrete store untouched, and a well-shaped batch appends exactly
its chunks and vectors. -/
theorem add_all_or_nothing_witness :
    (VectorStore.init Nat 2).add (.two [[1, 2, 3]] 3) [7] =
      .error (.dimMismatch, VectorStore.init Nat 2) ∧
    ((VectorStore.init Nat 2).add (.two [[1, 2], [3, 4]] 2) [7, 8] =
        .ok { dimension := 2, index := { kind := .flat, vecs := [[1, 2], [3, 4]] },
              documents := [7, 8] } →
      ({ dimension := 2, index := { kind := .flat, vecs := [[1, 2], [3, 4]] },
         documents := [7, 8] } : VectorStore Nat).documents = [] ++ [7, 8]) := by
  constructor
  · exact (add_all_or_nothing (VectorStore.init Nat 2) (.two [[1, 2, 3]] 3) [7]).2.2.2.1
      [[1, 2, 3]] 3 rfl (by decide) (by decide) (by decide)
  · intro h
    exact ((add_all_or_nothing (VectorStore.init Nat 2) (.two [[1, 2], [3, 4]] 2)
      [7, 8]).2.2.2.2.2 _ h).1

/-- On the success path of `add` the inserted rows and documents have equal
length (the length check passed). -/
theorem add_ok_rows_length {Doc : Type} {s s' : VectorStore Doc} {emb : NpArray}
    {docs : List Doc} (h : s.add emb docs = .ok s') :
    emb.rowsOf.length = docs.length := by
  unfold VectorStore.add at h
  by_cases h1 : emb.len ≠ docs.length
  · rw [if_pos h1] at h; cases h
  · push_neg at h1
    by_cases h2 : emb.len = 0
    · cases emb with
      | one v =>
          simp only [NpArray.len] at h1 h2
          simp [NpArray.rowsOf, ← h1, h2]
      | two rows cols =>
          simp only [NpArray.len] at h1
          exact h1
    · cases emb with
      | one v => rw [if_neg (by omega), if_neg h2] at h; cases h
      | two rows cols =>
          simp only [NpArray.len] at h1
          exact h1

/-- The alignment invariant `len(documents) == index.ntotal` is preserved by
every `add` call, both on success and across any raised exception. -/
theorem applyAdds_aligned {Doc : Type} (s : VectorStore Doc)
    (ops : List (NpArray × List Doc)) (hinv : s.index.ntotal = s.documents.length) :
    (s.applyAdds ops).index.ntotal = (s.applyAdds ops).documents.length := by
  induction ops generalizing s with
  | nil => exact hinv
  | cons op rest ih =>
      have hstep : s.applyAdds (op :: rest) = (match s.add op.1 op.2 with
          | .ok s2 => s2
          | .error es => es.2).applyAdds rest := rfl
      rw [hstep]
      rcases hadd : s.add op.1 op.2 with ⟨e, s2⟩ | s2
      · rcases add_error_state hadd with ⟨hd, hv, _⟩
        exact ih s2 (by simp only [FaissIndex.ntotal, hd, hv]; exact hinv)
      · rcases add_ok_state hadd with ⟨hd, hv, _⟩
        refine ih s2 ?_
        simp only [FaissIndex.ntotal, hd, hv, List.length_append]
        rw [add_ok_rows_length hadd]
        simp only [FaissIndex.ntotal] at hinv
        omega

/-- C1: after any sequence of `add` calls from a fresh store, the number of
stored documents equals the backend's total vector count; a successful `add`
extends the positional (document, vector) pairing without disturbing the
existing pairs; and `search` pairs each backend-returned index with
`self.documents` at that same position. -/
theorem positional_correspondence :
    (∀ (Doc : Type) (dim : Nat) (ops : List (NpArray × List Doc)),
      ((VectorStore.init Doc dim).applyAdds ops).index.ntotal =
        ((VectorStore.init Doc dim).applyAdds ops).documents.length) ∧
    (∀ (Doc : Type) (s s' : VectorStore Doc) (emb : NpArray) (docs : List Doc),
      s.index.ntotal = s.documents.length → s.add emb docs = .ok s' →
      s'.documents.zip s'.index.vecs =
        s.documents.zip s.index.vecs ++ docs.zip emb.rowsOf) ∧
    (∀ (Doc : Type) (documents : List Doc) (raw : List (ℚ × Int)) (d : Doc) (sc : ℚ),
      (d, sc) ∈ searchClip documents raw →
      ∃ i : Nat, documents.get? i = some d ∧ (sc, (i : Int)) ∈ raw) := by
  refine ⟨fun Doc dim ops => applyAdds_aligned _ _ rfl,
    fun Doc s s' emb docs hinv hok => ?_, fun Doc documents raw d sc h => ?_⟩
  · rcases add_ok_state hok with ⟨hd, hv, _⟩
    rw [hd, hv]
    exact List.zip_append (by simpa [FaissIndex.ntotal] using hinv.symm)
  · rcases mem_searchClip h with ⟨i, _, hget, hmem⟩
    exact ⟨i, hget, hmem⟩

/-- C1 witness: the invariant and the pairing evaluated on a concrete store
holding two vectors, with a backend answer naming position 1. -/
theorem positional_correspondence_witness :
    ((VectorStore.init Nat 2).applyAdds [(.two [[1, 0], [0, 1]] 2, [7, 8])]).index.ntotal =
      ((VectorStore.init Nat 2).applyAdds [(.two [[1, 0], [0, 1]] 2, [7, 8])]).documents.length ∧
    ∃ i : Nat, ([7, 8] : List Nat).get? i = some 8 ∧
      ((9 : ℚ), (i : Int)) ∈ [((9 : ℚ), (1 : Int))] :=
  ⟨positional_correspondence.1 Nat 2 [(.two [[1, 0], [0, 1]] 2, [7, 8])],
   positional_correspondence.2.2 Nat [7, 8] [((9 : ℚ), (1 : Int))] 8 9 (by decide)⟩

/-- C6: the index starts flat; the `add` call that reaches total count 1000
while the index is still flat rebuilds it as an IVF structure with
`max(100, sqrt(total_count))` clusters, trained on all existing vectors and
repopulated with them ahead of the new rows — no existing (vector, chunk)
pair is lost or reordered; below the threshold the index stays flat; and the
`search` wrapper is one and the same function whatever the index kind. -/
theorem adaptive_index_upgrade :
    (∀ (Doc : Type) (dim : Nat), (VectorStore.init Doc dim).index.kind = .flat) ∧
    (∀ (Doc : Type) (s s' : VectorStore Doc) (rows : List Vec) (cols : Nat)
        (docs : List Doc), s.index.kind = .flat → rows ≠ [] →
      1000 ≤ s.index.ntotal + rows.length →
      s.add (.two rows cols) docs = .ok s' →
      s'.index.kind =
        .ivf (max (Nat.sqrt (s.index.ntotal + rows.length)) 100) s.index.vecs ∧
      s'.index.vecs = s.index.vecs ++ rows ∧
      s'.documents = s.documents ++ docs) ∧
    (∀ (Doc : Type) (s s' : VectorStore Doc) (rows : List Vec) (cols : Nat)
        (docs : List Doc), s.index.kind = .flat →
      s.index.ntotal + rows.length < 1000 →
      s.add (.two rows cols) docs = .ok s' → s'.index.kind = .flat) ∧
    (∀ (Doc : Type) (s : VectorStore Doc) (κ : IndexKind)
        (backend : Nat → List (ℚ × Int)) (k : Nat),
      VectorStore.search { s with index := { s.index with kind := κ } } backend k =
        s.search backend k) := by
  refine ⟨fun Doc dim => rfl, fun Doc s s' rows cols docs hflat hrows hcross hok => ?_,
    fun Doc s s' rows cols docs hflat hlow hok => ?_, fun Doc s κ backend k => rfl⟩
  · unfold VectorStore.add at hok
    by_cases h1 : (NpArray.two rows cols).len ≠ docs.length
    · rw [if_pos h1] at hok; cases hok
    · rw [if_neg h1] at hok
      have hne : ¬ (NpArray.two rows cols).len = 0 := by
        simp only [NpArray.len]
        exact fun h => hrows (List.length_eq_zero.mp h)
      rw [if_neg hne] at hok
      dsimp only at hok
      by_cases h3 : cols ≠ s.dimension
      · rw [if_pos h3] at hok; cases hok
      · rw [if_neg h3] at hok
        rw [if_pos ⟨hcross, hflat⟩] at hok
        rcases hfa : (s.upgradeToIvf (s.index.ntotal + rows.length)).faissAdd rows
            with e | index2
        · rw [hfa] at hok; cases hok
        · rw [hfa] at hok
          cases hok
          rcases faissAdd_ok hfa with ⟨hv, hk⟩
          rcases Nat.eq_zero_or_pos s.index.ntotal with hzero | hpos
          · -- an upgrade from an empty flat index leaves the IVF untrained,
            -- so the backend add cannot have succeeded
            exfalso
            have hup : s.upgradeToIvf (s.index.ntotal + rows.length) =
                { kind := .ivf (max (Nat.sqrt (s.index.ntotal + rows.length)) 100) [],
                  vecs := [] } := by
              unfold VectorStore.upgradeToIvf
              rw [if_neg (by omega)]
            rw [hup] at hfa
            simp [FaissIndex.faissAdd] at hfa
          · refine ⟨?_, ?_, rfl⟩
            · show index2.kind = _
              rw [hk, upgradeToIvf_kind s _ hpos]
            · show index2.vecs = _
              rw [hv, upgradeToIvf_vecs]
  · unfold VectorStore.add at hok
    by_cases h1 : (NpArray.two rows cols).len ≠ docs.length
    · rw [if_pos h1] at hok; cases hok
    · rw [if_neg h1] at hok
      by_cases h2 : (NpArray.two rows cols).len = 0
      · rw [if_pos h2] at hok
        cases hok
        exact hflat
      · rw [if_neg h2] at hok
        dsimp only at hok
        by_cases h3 : cols ≠ s.dimension
        · rw [if_pos h3] at hok; cases hok
        · rw [if_neg h3] at hok
          rw [if_neg (by rintro ⟨hge, -⟩; omega)] at hok
          rcases hfa : s.index.faissAdd rows with e | index2
          · rw [hfa] at hok; cases hok
          · rw [hfa] at hok
            cases hok
            show index2.kind = _
            rw [(faissAdd_ok hfa).2]
            exact hflat

set_option maxRecDepth 4000 in
/-- C6 witness: a concrete crossing `add` (1 existing vector, 999 incoming)
produces the IVF index with `max(100, sqrt(1000)) = 100` clusters trained on
the single existing vector, and keeps the pairs in order. -/
theorem adaptive_index_upgrade_witness :
    ∀ s' : VectorStore Nat,
      ({ dimension := 1, index := { kind := .flat, vecs := [[5]] },
         documents := [0] } : VectorStore Nat).add
        (.two (List.replicate 999 [2]) 1) (List.replicate 999 1) = .ok s' →
      s'.index.kind = .ivf 100 [[5]] ∧
      s'.index.vecs = [[5]] ++ List.replicate 999 [2] ∧
      s'.documents = [0] ++ List.replicate 999 1 := by
  intro s' hok
  have hrep : List.replicate 999 ([2] : Vec) ≠ [] := by
    intro hc
    have hl := congrArg List.length hc
    rw [List.length_replicate] at hl
    exact absurd hl (by norm_num)
  have h := adaptive_index_upgrade.2.1 Nat
    ({ dimension := 1, index := { kind := .flat, vecs := [[5]] },
       documents := [0] } : VectorStore Nat) s' (List.replicate 999 [2]) 1
    (List.replicate 999 1) rfl hrep
    (by rw [List.length_replicate]; norm_num [FaissIndex.ntotal]) hok
  obtain ⟨h1, h2, h3⟩ := h
  refine ⟨?_, h2, h3⟩
  rw [h1]
  have hm : max (Nat.sqrt (1 + 999)) 100 = 100 := by norm_num
  rw [List.length_replicate]
  exact congrArg (fun n => IndexKind.ivf n [[5]]) hm

/-- C10: `search` is total and in-bounds.  An empty index yields `[]`; a
non-empty index asks the backend for `min(top_k, ntotal)` neighbours; every
returned pair comes from an in-bounds backend position paired with the
document at that position; at most as many results as backend rows are
produced; and any out-of-range backend row (negative sentinel or too-large
index) is silently dropped. -/
theorem search_total_in_bounds :
    (∀ (Doc : Type) (s : VectorStore Doc) (backend : Nat → List (ℚ × Int)) (k : Nat),
      s.index.ntotal = 0 → s.search backend k = []) ∧
    (∀ (Doc : Type) (s : VectorStore Doc) (backend : Nat → List (ℚ × Int)) (k : Nat),
      s.index.ntotal ≠ 0 →
      s.search backend k = searchClip s.documents (backend (min k s.index.ntotal))) ∧
    (∀ (Doc : Type) (documents : List Doc) (raw : List (ℚ × Int)) (d : Doc) (sc : ℚ),
      (d, sc) ∈ searchClip documents raw →
      ∃ i : Nat, i < documents.length ∧ documents.get? i = some d ∧
        (sc, (i : Int)) ∈ raw) ∧
    (∀ (Doc : Type) (documents : List Doc) (raw : List (ℚ × Int)),
      (searchClip documents raw).length ≤ raw.length) ∧
    (∀ (Doc : Type) (documents : List Doc) (raw : List (ℚ × Int)) (sc : ℚ) (i : Int),
      i < 0 ∨ (documents.length : Int) ≤ i →
      searchClip documents ((sc, i) :: raw) = searchClip documents raw) := by
  refine ⟨fun Doc s backend k h => ?_, fun Doc s backend k h => ?_,
    fun Doc documents raw d sc h => mem_searchClip h,
    fun Doc documents raw => ?_, fun Doc documents raw sc i h => ?_⟩
  · unfold VectorStore.search
    rw [if_pos h]
  · unfold VectorStore.search
    rw [if_neg h]
  · unfold searchClip
    exact List.length_filterMap_le _ _
  · unfold searchClip
    rw [List.filterMap_cons]
    have : ¬ (0 ≤ i ∧ i < (documents.length : Int)) := by omega
    rw [if_neg this]

/-- C10 witness: a store with two documents and a backend that pads with the
`-1` sentinel and an oversized index returns only the valid pair. -/
theorem search_total_in_bounds_witness :
    ({ dimension := 2, index := { kind := .flat, vecs := [[1, 0], [0, 1]] },
       documents := [7, 8] } : VectorStore Nat).search
      (fun _ => [((9 : ℚ), (1 : Int)), (3, -1), (2, 5)]) 10 = [(8, 9)] ∧
    searchClip ([7, 8] : List Nat) [((3 : ℚ), (-1 : Int))] =
      searchClip ([7, 8] : List Nat) [] := by
  refine ⟨?_, search_total_in_bounds.2.2.2.2 Nat [7, 8] [] 3 (-1) (by omega)⟩
  rw [search_total_in_bounds.2.1 Nat _ _ 10 (by decide)]
  decide

/-! ### Session manager lemmas -/

/-- Unfolding equation for `lookupSession` on a non-empty session map. -/
theorem lookupSession_cons (x : String × DocumentSession)
    (l : List (String × DocumentSession)) (fid' : String) :
    lookupSession (x :: l) fid' =
      if x.1 = fid' then some x.2 else lookupSession l fid' := by
  unfold lookupSession
  rw [List.find?_cons]
  by_cases hx : x.1 = fid'
  · rw [if_pos hx, decide_eq_true hx]
    rfl
  · rw [if_neg hx, decide_eq_false hx]

/-- `self.sessions[file_id] = s` makes `file_id` resolve to `s`. -/
theorem lookup_store_self {l : List (String × DocumentSession)} {fid : String}
    {s : DocumentSession} : lookupSession (storeSession l fid s) fid = some s := by
  induction l with
  | nil => simp [storeSession, lookupSession_cons]
  | cons e es ih =>
      unfold storeSession
      by_cases h : e.1 = fid
      · rw [if_pos h, lookupSession_cons]
        simp
      · rw [if_neg h, lookupSession_cons, if_neg h]
        exact ih

/-- Storing under one `file_id` leaves every other `file_id` unchanged. -/
theorem lookup_store_other {l : List (String × DocumentSession)} {fid fid' : String}
    {s : DocumentSession} (h : fid' ≠ fid) :
    lookupSession (storeSession l fid s) fid' = lookupSession l fid' := by
  have hfid : ¬ fid = fid' := fun hc => h hc.symm
  induction l with
  | nil =>
      unfold storeSession
      rw [lookupSession_cons, if_neg hfid]
  | cons e es ih =>
      unfold storeSession
      by_cases he : e.1 = fid
      · rw [if_pos he, lookupSession_cons, if_neg hfid, lookupSession_cons,
          if_neg (he ▸ hfid)]
      · rw [if_neg he, lookupSession_cons, lookupSession_cons]
        by_cases hf : e.1 = fid'
        · rw [if_pos hf, if_pos hf]
        · rw [if_neg hf, if_neg hf]
          exact ih

/-- A hash is on disk after being persisted. -/
theorem mem_persistHash_self (h : String) (disk : List String) :
    h ∈ persistHash h disk := by
  unfold persistHash
  by_cases hm : h ∈ disk
  · rwa [if_pos hm]
  · rw [if_neg hm]
    exact List.mem_cons_self h disk

/-- C9: `process_document` fails atomically.  With an unprocessed session in
hand: an extension that is neither the document nor the audio kind raises
`UnsupportedFileType` with the state fully unchanged; an ingestion failure
leaves no cache entry and the session unprocessed; on any failure the disk
and the session are untouched; and the persist step plus the `processed`
flip happen exactly on the success path. -/
theorem processDocument_atomic (env : SMEnv) (st : SMState) (fid : String)
    (s : DocumentSession) (hs : lookupSession st.sessions fid = some s)
    (hp : s.processed = false) :
    (extFileType (fileSuffix s.filepath) = none →
      processDocument env st fid = (st, some .unsupportedFileType)) ∧
    (∀ ft, extFileType (fileSuffix s.filepath) = some ft →
      env.ingestOk s.filepath = false →
      processDocument env st fid =
        ({ st with ingestCount := st.ingestCount + 1 }, some .ingestFailed)) ∧
    (∀ st' e, processDocument env st fid = (st', some e) →
      st'.disk = st.disk ∧ lookupSession st'.sessions fid = some s) ∧
    (∀ st', processDocument env st fid = (st', none) →
      st'.disk = persistHash s.file_hash st.disk ∧
      ∃ ft, extFileType (fileSuffix s.filepath) = some ft ∧
        lookupSession st'.sessions fid =
          some { s with processed := true, fileType := some ft }) := by
  refine ⟨fun hext => ?_, fun ft hext hbad => ?_, fun st' e hrun => ?_,
    fun st' hrun => ?_⟩
  · unfold processDocument
    rw [hs]
    simp only [hp, Bool.false_eq_true, if_false, hext]
  · unfold processDocument
    rw [hs]
    simp only [hp, Bool.false_eq_true, if_false, hext, hbad, if_false]
  · unfold processDocument at hrun
    rw [hs] at hrun
    simp only [hp, Bool.false_eq_true, if_false] at hrun
    rcases hext : extFileType (fileSuffix s.filepath) with _ | ft
    · rw [hext] at hrun
      cases hrun
      exact ⟨rfl, hs⟩
    · rw [hext] at hrun
      dsimp only at hrun
      by_cases hok : env.ingestOk s.filepath
      · rw [if_pos hok] at hrun
        cases hrun
      · rw [if_neg hok] at hrun
        cases hrun
        exact ⟨rfl, hs⟩
  · unfold processDocument at hrun
    rw [hs] at hrun
    simp only [hp, Bool.false_eq_true, if_false] at hrun
    rcases hext : extFileType (fileSuffix s.filepath) with _ | ft
    · rw [hext] at hrun
      cases hrun
    · rw [hext] at hrun
      dsimp only at hrun
      by_cases hok : env.ingestOk s.filepath
      · rw [if_pos hok] at hrun
        cases hrun
        exact ⟨rfl, ft, rfl, lookup_store_self⟩
      · rw [if_neg hok] at hrun
        cases hrun

/-- C9 witness: on a fresh session for a `.xyz` file the call fails with
`UnsupportedFileType` leaving the fresh state untouched. -/
theorem processDocument_atomic_witness :
    processDocument demoEnv (getOrCreateSession demoEnv emptySM "f1" "a.xyz").1 "f1" =
      ((getOrCreateSession demoEnv emptySM "f1" "a.xyz").1,
        some .unsupportedFileType) :=
  (processDocument_atomic demoEnv (getOrCreateSession demoEnv emptySM "f1" "a.xyz").1
    "f1" { file_id := "f1", filepath := "a.xyz", file_hash := "SAMEBYTES",
           processed := false, fileType := none }
    (by decide) (by decide)).1 (by decide)

/-- `get_or_create_session` on an in-memory hit returns the stored session
object and changes nothing (in particular, no hash is recomputed). -/
theorem getOrCreate_memo (env : SMEnv) (st : SMState) (fid fpath : String)
    (s : DocumentSession) (hs : lookupSession st.sessions fid = some s) :
    getOrCreateSession env st fid fpath = (st, s) := by
  unfold getOrCreateSession
  rw [hs]

/-- `get_or_create_session` on a miss: hash the file, check the cache
directory, store and return a fresh session. -/
theorem getOrCreate_miss (env : SMEnv) (st : SMState) (fid fpath : String)
    (h : lookupSession st.sessions fid = none) :
    getOrCreateSession env st fid fpath =
      ({ st with hashCount := st.hashCount + 1,
                 sessions := storeSession st.sessions fid
                   { file_id := fid, filepath := fpath
                     file_hash := env.sha256 (env.content fpath)
                     processed := decide (env.sha256 (env.content fpath) ∈ st.disk)
                     fileType := none } },
       { file_id := fid, filepath := fpath
         file_hash := env.sha256 (env.content fpath)
         processed := decide (env.sha256 (env.content fpath) ∈ st.disk)
         fileType := none }) := by
  unfold getOrCreateSession
  rw [h]

/-- `process_document` on an already-processed session is a no-op. -/
theorem processDocument_noop (env : SMEnv) (st : SMState) (fid : String)
    (s : DocumentSession) (hs : lookupSession st.sessions fid = some s)
    (hp : s.processed = true) : processDocument env st fid = (st, none) := by
  unfold processDocument
  rw [hs]
  simp only [hp, if_true]

/-- `process_document` on an unprocessed session with a supported extension
and successful ingestion: count one ingestion, persist under the content
hash, flip `processed`. -/
theorem processDocument_success (env : SMEnv) (st : SMState) (fid : String)
    (s : DocumentSession) (ft : String)
    (hs : lookupSession st.sessions fid = some s) (hp : s.processed = false)
    (hext : extFileType (fileSuffix s.filepath) = some ft)
    (hok : env.ingestOk s.filepath = true) :
    processDocument env st fid =
      ({ st with ingestCount := st.ingestCount + 1,
                 sessions := storeSession st.sessions fid
                   { s with processed := true, fileType := some ft },
                 disk := persistHash s.file_hash st.disk }, none) := by
  unfold processDocument
  rw [hs]
  simp only [hp, Bool.false_eq_true, if_false, hext]
  rw [if_pos hok]

/-- Two files with identical bytes and different `file_id`s: the first run
creates, ingests once and persists; the second `get_or_create_session`
resolves to the same content hash, comes back already processed, and its
`process_document` is a no-op — one ingestion in total. -/
theorem content_addressed_scenario (env : SMEnv) (st : SMState)
    (fid1 p1 fid2 p2 ft : String)
    (hcontent : env.content p1 = env.content p2)
    (hne : fid2 ≠ fid1)
    (h1 : lookupSession st.sessions fid1 = none)
    (h2 : lookupSession st.sessions fid2 = none)
    (hmiss : env.sha256 (env.content p1) ∉ st.disk)
    (hext : extFileType (fileSuffix p1) = some ft)
    (hok : env.ingestOk p1 = true) :
    ∃ (st1 st2 st3 : SMState) (s1 s2 : DocumentSession),
      getOrCreateSession env st fid1 p1 = (st1, s1) ∧
      processDocument env st1 fid1 = (st2, none) ∧
      getOrCreateSession env st2 fid2 p2 = (st3, s2) ∧
      s1.file_hash = env.sha256 (env.content p1) ∧
      s2.file_hash = s1.file_hash ∧
      s2.processed = true ∧
      st3.ingestCount = st.ingestCount + 1 ∧
      processDocument env st3 fid2 = (st3, none) := by
  have e1 := getOrCreate_miss env st fid1 p1 h1
  have hs1p : decide (env.sha256 (env.content p1) ∈ st.disk) = false :=
    decide_eq_false hmiss
  have h6 : env.sha256 (env.content p2) ∈
      persistHash (env.sha256 (env.content p1)) st.disk := by
    rw [← hcontent]
    exact mem_persistHash_self _ _
  exact ⟨_, _, _, _, _, e1,
    processDocument_success env _ fid1 _ ft lookup_store_self hs1p hext hok,
    getOrCreate_miss env _ fid2 p2
      ((lookup_store_other hne).trans ((lookup_store_other hne).trans h2)),
    rfl,
    (congrArg env.sha256 hcontent).symm,
    decide_eq_true h6,
    rfl,
    processDocument_noop env _ fid2 _ lookup_store_self (decide_eq_true h6)⟩

/-- C2: ingestion runs at most once per distinct content.  A second
`get_or_create_session` with the same `file_id` returns the identical
in-memory session with the whole manager state unchanged (no re-hashing); a
second `process_document` on a processed session is a no-op; and a file
with identical bytes under a different `file_id` resolves to the same
content-hash cache entry, is created already processed, and incurs zero
further ingestion calls. -/
theorem ingestion_once_per_content :
    (∀ (env : SMEnv) (st : SMState) (fid fpath : String) (s : DocumentSession),
      lookupSession st.sessions fid = some s →
      getOrCreateSession env st fid fpath = (st, s)) ∧
    (∀ (env : SMEnv) (st : SMState) (fid : String) (s : DocumentSession),
      lookupSession st.sessions fid = some s → s.processed = true →
      processDocument env st fid = (st, none)) ∧
    (∀ (env : SMEnv) (st : SMState) (fid1 p1 fid2 p2 ft : String),
      env.content p1 = env.content p2 → fid2 ≠ fid1 →
      lookupSession st.sessions fid1 = none →
      lookupSession st.sessions fid2 = none →
      env.sha256 (env.content p1) ∉ st.disk →
      extFileType (fileSuffix p1) = some ft → env.ingestOk p1 = true →
      ∃ (st1 st2 st3 : SMState) (s1 s2 : DocumentSession),
        getOrCreateSession env st fid1 p1 = (st1, s1) ∧
        processDocument env st1 fid1 = (st2, none) ∧
        getOrCreateSession env st2 fid2 p2 = (st3, s2) ∧
        s1.file_hash = env.sha256 (env.content p1) ∧
        s2.file_hash = s1.file_hash ∧
        s2.processed = true ∧
        st3.ingestCount = st.ingestCount + 1 ∧
        processDocument env st3 fid2 = (st3, none)) :=
  ⟨fun env st fid fpath s hs => getOrCreate_memo env st fid fpath s hs,
   fun env st fid s hs hp => processDocument_noop env st fid s hs hp,
   fun env st fid1 p1 fid2 p2 ft hc hne h1 h2 hm he ho =>
     content_addressed_scenario env st fid1 p1 fid2 p2 ft hc hne h1 h2 hm he ho⟩

/-- C2 witness: the content-addressing scenario run on two concrete files
with identical bytes and distinct ids from a fresh manager. -/
theorem ingestion_once_per_content_witness :
    ∃ (st1 st2 st3 : SMState) (s1 s2 : DocumentSession),
      getOrCreateSession demoEnv emptySM "f1" "a.pdf" = (st1, s1) ∧
      processDocument demoEnv st1 "f1" = (st2, none) ∧
      getOrCreateSession demoEnv st2 "f2" "b.pdf" = (st3, s2) ∧
      s1.file_hash = demoEnv.sha256 (demoEnv.content "a.pdf") ∧
      s2.file_hash = s1.file_hash ∧
      s2.processed = true ∧
      st3.ingestCount = emptySM.ingestCount + 1 ∧
      processDocument demoEnv st3 "f2" = (st3, none) :=
  ingestion_once_per_content.2.2 demoEnv emptySM "f1" "a.pdf" "f2" "b.pdf" "pdf"
    rfl (by decide) rfl rfl (by decide) (by decide) rfl

/-! ### Hybrid retriever lemmas -/

/-- Min-max normalization preserves the number of scores. -/
theorem normalizeScores_length (l : List ℚ) :
    (normalizeScores l).length = l.length := by
  cases l with
  | nil => rfl
  | cons s0 rest =>
      simp only [normalizeScores]
      by_cases h : rest.foldl max s0 = rest.foldl min s0
      · rw [if_pos h, List.length_replicate]
      · rw [if_neg h, List.length_map]

/-- Pairing a signal's rows with their normalized scores keeps the document
ids, in order. -/
theorem keysOf_withNormalized (l : List (Nat × ℚ)) :
    keysOf (withNormalized l) = keysOf l := by
  unfold keysOf withNormalized
  rw [List.map_map]
  have hlen : l.length ≤ (normalizeScores (l.map (·.2))).length := by
    rw [normalizeScores_length, List.length_map]
  have hfst : (l.zip (normalizeScores (l.map (·.2)))).map Prod.fst = l :=
    List.map_fst_zip _ _ hlen
  calc (l.zip (normalizeScores (l.map (·.2)))).map
        ((fun p : Nat × ℚ => p.1) ∘ fun p : (Nat × ℚ) × ℚ => (p.1.1, p.2))
      = ((l.zip (normalizeScores (l.map (·.2)))).map Prod.fst).map (fun p => p.1) := by
        rw [List.map_map]
        rfl
    _ = l.map fun p => p.1 := by rw [hfst]

/-- Unfolding equation for `getEntry` on a non-empty `score_map`. -/
theorem getEntry_cons (e : ScoreEntry) (m : List ScoreEntry) (d : Nat) :
    getEntry (e :: m) d = if e.1 = d then some e else getEntry m d := by
  unfold getEntry
  rw [List.find?_cons]
  by_cases h : e.1 = d
  · rw [if_pos h, decide_eq_true h]
  · rw [if_neg h, decide_eq_false h]

/-- Effect of the vector-phase write `score_map[d] = {v, 0.0}` on lookups. -/
theorem getEntry_setVec (m : List ScoreEntry) (d : Nat) (v : ℚ) (d' : Nat) :
    getEntry (setVecScore m d v) d' =
      if d' = d then some (d, v, 0) else getEntry m d' := by
  induction m with
  | nil =>
      unfold setVecScore
      by_cases h : d' = d
      · simp [getEntry_cons, h]
      · simp [getEntry_cons, h, Ne.symm h, getEntry]
  | cons e es ih =>
      unfold setVecScore
      by_cases he : e.1 = d
      · rw [if_pos he]
        by_cases h : d' = d
        · simp [getEntry_cons, he, h]
        · simp [getEntry_cons, he, h, Ne.symm h]
      · rw [if_neg he]
        by_cases hf : e.1 = d'
        · have hdd : ¬ d' = d := fun hc => he (hf.trans hc)
          simp [getEntry_cons, hf, hdd, ih]
        · simp [getEntry_cons, hf, ih]

/-- Effect of the BM25-phase write on lookups: an existing entry keeps its
vector score and gains `b`; a missing document is appended with vector score
`0.0`. -/
theorem getEntry_setBm (m : List ScoreEntry) (d : Nat) (b : ℚ) (d' : Nat) :
    getEntry (setBm25Score m d b) d' =
      if d' = d then
        some (((getEntry m d).map fun e => (e.1, e.2.1, b)).getD (d, 0, b))
      else getEntry m d' := by
  induction m with
  | nil =>
      unfold setBm25Score
      by_cases h : d' = d
      · simp [getEntry_cons, h, getEntry]
      · simp [getEntry_cons, h, Ne.symm h, getEntry]
  | cons e es ih =>
      unfold setBm25Score
      by_cases he : e.1 = d
      · rw [if_pos he]
        by_cases h : d' = d
        · simp [getEntry_cons, he, h]
        · simp [getEntry_cons, he, h, Ne.symm h]
      · rw [if_neg he]
        by_cases hf : e.1 = d'
        · have hdd : ¬ d' = d := fun hc => he (hf.trans hc)
          simp [getEntry_cons, hf, he, hdd, ih]
        · simp [getEntry_cons, hf, he, ih]

/-- The key found for `d` is `d` itself. -/
theorem find?_key_eq {l : List (Nat × ℚ)} {d : Nat} {p : Nat × ℚ}
    (h : l.find? (fun q => q.1 = d) = some p) : p.1 = d := by
  simpa using List.find?_some h

/-- A found row determines `lookupScore`. -/
theorem lookupScore_of_find? {l : List (Nat × ℚ)} {d : Nat} {p : Nat × ℚ}
    (h : l.find? (fun q => q.1 = d) = some p) : lookupScore l d = p.2 := by
  unfold lookupScore
  rw [h]
  rfl

/-- A signal that did not retrieve `d` contributes score `0`. -/
theorem lookupScore_of_none {l : List (Nat × ℚ)} {d : Nat}
    (h : l.find? (fun q => q.1 = d) = none) : lookupScore l d = 0 := by
  unfold lookupScore
  rw [h]
  rfl

/-- A document id is among a result list's keys iff `find?` locates it. -/
theorem mem_keys_iff_find? (l : List (Nat × ℚ)) (d : Nat) :
    d ∈ keysOf l ↔ (l.find? (fun q => q.1 = d)).isSome := by
  rw [List.find?_isSome]
  unfold keysOf
  simp

/-- Vector phase of `_combine_results` over a whole result list: under
duplicate-free document ids, each id maps to its (normalized) score paired
with a `0.0` BM25 slot, and other ids are untouched. -/
theorem getEntry_foldVec (l : List (Nat × ℚ)) (m0 : List ScoreEntry) (d : Nat)
    (hnd : (keysOf l).Nodup) :
    getEntry (l.foldl (fun m p => setVecScore m p.1 p.2) m0) d =
      match l.find? (fun q => q.1 = d) with
      | some p => some (d, p.2, 0)
      | none => getEntry m0 d := by
  induction l generalizing m0 with
  | nil => rfl
  | cons p l ih =>
      rw [List.foldl_cons, List.find?_cons]
      have hnd' : (keysOf l).Nodup := (List.nodup_cons.mp hnd).2
      have hpl : p.1 ∉ keysOf l := (List.nodup_cons.mp hnd).1
      by_cases hd : p.1 = d
      · rw [decide_eq_true hd]
        have hnone : l.find? (fun q => q.1 = d) = none := by
          rw [List.find?_eq_none]
          intro x hx
          simp only [decide_eq_true_eq]
          intro hc
          exact hpl (hd ▸ hc ▸ List.mem_map_of_mem (·.1) hx)
        rw [ih _ hnd', hnone, getEntry_setVec, if_pos hd.symm, hd]
      · rw [decide_eq_false hd, ih _ hnd']
        rcases hf : l.find? (fun q => q.1 = d) with _ | q
        · rw [hf, getEntry_setVec, if_neg fun hc => hd hc.symm]
        · rw [hf]

/-- BM25 phase of `_combine_results` over a whole result list: under
duplicate-free ids, a retrieved id updates the BM25 slot of its entry (or is
appended with a `0.0` vector slot), and other ids are untouched. -/
theorem getEntry_foldBm (l : List (Nat × ℚ)) (m0 : List ScoreEntry) (d : Nat)
    (hnd : (keysOf l).Nodup) :
    getEntry (l.foldl (fun m p => setBm25Score m p.1 p.2) m0) d =
      match l.find? (fun q => q.1 = d) with
      | some p => some (((getEntry m0 d).map fun e => (e.1, e.2.1, p.2)).getD (d, 0, p.2))
      | none => getEntry m0 d := by
  induction l generalizing m0 with
  | nil => rfl
  | cons p l ih =>
      rw [List.foldl_cons, List.find?_cons]
      have hnd' : (keysOf l).Nodup := (List.nodup_cons.mp hnd).2
      have hpl : p.1 ∉ keysOf l := (List.nodup_cons.mp hnd).1
      by_cases hd : p.1 = d
      · rw [decide_eq_true hd]
        have hnone : l.find? (fun q => q.1 = d) = none := by
          rw [List.find?_eq_none]
          intro x hx
          simp only [decide_eq_true_eq]
          intro hc
          exact hpl (hd ▸ hc ▸ List.mem_map_of_mem (·.1) hx)
        rw [ih _ hnd', hnone, getEntry_setBm, if_pos hd.symm, hd]
      · rw [decide_eq_false hd, ih _ hnd']
        rcases hf : l.find? (fun q => q.1 = d) with _ | q
        · rw [hf, getEntry_setBm, if_neg fun hc => hd hc.symm]
        · rw [hf, getEntry_setBm, if_neg fun hc => hd hc.symm]

/-- `_combine_results` builds its `score_map` as two normalized passes. -/
theorem buildScoreMap_eq (vr br : List (Nat × ℚ)) :
    buildScoreMap vr br =
      (withNormalized br).foldl (fun m p => setBm25Score m p.1 p.2)
        ((withNormalized vr).foldl (fun m p => setVecScore m p.1 p.2) []) := by
  unfold buildScoreMap withNormalized
  rw [List.foldl_map, List.foldl_map]

/-- The `score_map`, characterized: a document retrieved by either signal is
present with exactly its normalized per-signal scores (`0.0` for a signal
that missed it); every other document is absent. -/
theorem getEntry_buildScoreMap (vr br : List (Nat × ℚ)) (d : Nat)
    (hv : (keysOf vr).Nodup) (hb : (keysOf br).Nodup) :
    getEntry (buildScoreMap vr br) d =
      if d ∈ keysOf vr ∨ d ∈ keysOf br then
        some (d, lookupScore (withNormalized vr) d,
          lookupScore (withNormalized br) d)
      else none := by
  have hv' : (keysOf (withNormalized vr)).Nodup := by
    rw [keysOf_withNormalized]
    exact hv
  have hb' : (keysOf (withNormalized br)).Nodup := by
    rw [keysOf_withNormalized]
    exact hb
  have hmv : d ∈ keysOf vr ↔ ((withNormalized vr).find? (fun q => q.1 = d)).isSome := by
    rw [← keysOf_withNormalized vr]
    exact mem_keys_iff_find? _ d
  have hmb : d ∈ keysOf br ↔ ((withNormalized br).find? (fun q => q.1 = d)).isSome := by
    rw [← keysOf_withNormalized br]
    exact mem_keys_iff_find? _ d
  rw [buildScoreMap_eq, getEntry_foldBm _ _ _ hb', getEntry_foldVec _ _ _ hv']
  rcases hfb : (withNormalized br).find? (fun q => q.1 = d) with _ | pb <;>
    rcases hfv : (withNormalized vr).find? (fun q => q.1 = d) with _ | pv <;>
      rw [hfb, hfv]
  · rw [if_neg]
    · rfl
    · rw [hmv, hmb, hfv, hfb]
      simp
  · rw [if_pos (Or.inl (by rw [hmv, hfv]; rfl)),
      lookupScore_of_find? hfv, lookupScore_of_none hfb]
  · rw [if_pos (Or.inr (by rw [hmb, hfb]; rfl)),
      lookupScore_of_none hfv, lookupScore_of_find? hfb]
    rfl
  · rw [if_pos (Or.inl (by rw [hmv, hfv]; rfl)),
      lookupScore_of_find? hfv, lookupScore_of_find? hfb]
    rfl

/-- The vector-phase write keeps existing keys and appends a new one. -/
theorem keysEnt_setVec (m : List ScoreEntry) (d : Nat) (v : ℚ) :
    keysEnt (setVecScore m d v) =
      if d ∈ keysEnt m then keysEnt m else keysEnt m ++ [d] := by
  induction m with
  | nil => simp [setVecScore, keysEnt]
  | cons e es ih =>
      unfold setVecScore
      by_cases he : e.1 = d
      · rw [if_pos he]
        have : d ∈ keysEnt (e :: es) := by
          unfold keysEnt
          rw [List.map_cons, he]
          exact List.mem_cons_self d _
        rw [if_pos this]
        simp [keysEnt, he]
      · rw [if_neg he]
        have hcons : keysEnt (e :: setVecScore es d v) =
            e.1 :: keysEnt (setVecScore es d v) := rfl
        have hcons2 : keysEnt (e :: es) = e.1 :: keysEnt es := rfl
        rw [hcons, ih, hcons2]
        by_cases hm : d ∈ keysEnt es
        · rw [if_pos hm, if_pos (List.mem_cons_of_mem _ hm)]
        · rw [if_neg hm, if_neg (by
            intro hc
            rcases List.mem_cons.mp hc with hc | hc
            · exact he hc.symm
            · exact hm hc)]
          rfl

/-- The BM25-phase write keeps existing keys and appends a new one. -/
theorem keysEnt_setBm (m : List ScoreEntry) (d : Nat) (b : ℚ) :
    keysEnt (setBm25Score m d b) =
      if d ∈ keysEnt m then keysEnt m else keysEnt m ++ [d] := by
  induction m with
  | nil => simp [setBm25Score, keysEnt]
  | cons e es ih =>
      unfold setBm25Score
      by_cases he : e.1 = d
      · rw [if_pos he]
        have : d ∈ keysEnt (e :: es) := by
          unfold keysEnt
          rw [List.map_cons, he]
          exact List.mem_cons_self d _
        rw [if_pos this]
        rfl
      · rw [if_neg he]
        have hcons : keysEnt (e :: setBm25Score es d b) =
            e.1 :: keysEnt (setBm25Score es d b) := rfl
        have hcons2 : keysEnt (e :: es) = e.1 :: keysEnt es := rfl
        rw [hcons, ih, hcons2]
        by_cases hm : d ∈ keysEnt es
        · rw [if_pos hm, if_pos (List.mem_cons_of_mem _ hm)]
        · rw [if_neg hm, if_neg (by
            intro hc
            rcases List.mem_cons.mp hc with hc | hc
            · exact he hc.symm
            · exact hm hc)]
          rfl

/-- Both writes preserve duplicate-freedom of the `score_map` keys. -/
theorem nodup_keysEnt_setVec (m : List ScoreEntry) (d : Nat) (v : ℚ)
    (h : (keysEnt m).Nodup) : (keysEnt (setVecScore m d v)).Nodup := by
  rw [keysEnt_setVec]
  by_cases hm : d ∈ keysEnt m
  · rwa [if_pos hm]
  · rw [if_neg hm, List.nodup_append]
    exact ⟨h, List.nodup_singleton d, by simpa using hm⟩

theorem nodup_keysEnt_setBm (m : List ScoreEntry) (d : Nat) (b : ℚ)
    (h : (keysEnt m).Nodup) : (keysEnt (setBm25Score m d b)).Nodup := by
  rw [keysEnt_setBm]
  by_cases hm : d ∈ keysEnt m
  · rwa [if_pos hm]
  · rw [if_neg hm, List.nodup_append]
    exact ⟨h, List.nodup_singleton d, by simpa using hm⟩

/-- The `score_map` never holds two entries for one document id. -/
theorem nodup_keysEnt_buildScoreMap (vr br : List (Nat × ℚ)) :
    (keysEnt (buildScoreMap vr br)).Nodup := by
  rw [buildScoreMap_eq]
  have h1 : ∀ (l : List (Nat × ℚ)) (m0 : List ScoreEntry), (keysEnt m0).Nodup →
      (keysEnt (l.foldl (fun m p => setVecScore m p.1 p.2) m0)).Nodup := by
    intro l
    induction l with
    | nil => exact fun m0 h => h
    | cons p l ih => exact fun m0 h => ih _ (nodup_keysEnt_setVec _ _ _ h)
  have h2 : ∀ (l : List (Nat × ℚ)) (m0 : List ScoreEntry), (keysEnt m0).Nodup →
      (keysEnt (l.foldl (fun m p => setBm25Score m p.1 p.2) m0)).Nodup := by
    intro l
    induction l with
    | nil => exact fun m0 h => h
    | cons p l ih => exact fun m0 h => ih _ (nodup_keysEnt_setBm _ _ _ h)
  exact h2 _ _ (h1 _ _ List.nodup_nil)

/-- With duplicate-free keys, membership determines the `find?` result. -/
theorem getEntry_of_mem {m : List ScoreEntry} (hnd : (keysEnt m).Nodup)
    {e : ScoreEntry} (he : e ∈ m) : getEntry m e.1 = some e := by
  induction m with
  | nil => cases he
  | cons a as ih =>
      have hnd' : (a.1 :: keysEnt as).Nodup := hnd
      rw [getEntry_cons]
      rcases List.mem_cons.mp he with rfl | hmem
      · rw [if_pos rfl]
      · by_cases ha : a.1 = e.1
        · exfalso
          refine (List.nodup_cons.mp hnd').1 ?_
          show a.1 ∈ keysEnt as
          rw [ha]
          exact List.mem_map_of_mem (·.1) hmem
        · rw [if_neg ha]
          exact ih (List.nodup_cons.mp hnd').2 hmem

/-- The fused list carries the `score_map` ids unchanged, in order. -/
theorem keysOf_map_fuse (r : HybridRetriever) (m : List ScoreEntry) :
    keysOf (m.map fun e =>
      (e.1, fuseScore r.vectorWeight r.bm25Weight e.2.1 e.2.2)) = keysEnt m := by
  unfold keysOf keysEnt
  rw [List.map_map]
  rfl

/-- Every pair of `_combine_results` output comes from a `score_map` entry. -/
theorem mem_combineResults {r : HybridRetriever} {vr br : List (Nat × ℚ)}
    {d : Nat} {c : ℚ} (h : (d, c) ∈ r.combineResults vr br) :
    ∃ e ∈ buildScoreMap vr br, e.1 = d ∧
      c = fuseScore r.vectorWeight r.bm25Weight e.2.1 e.2.2 := by
  simp only [HybridRetriever.combineResults, List.mem_insertionSort] at h
  rcases List.mem_map.mp h with ⟨e, hem, heq⟩
  exact ⟨e, hem, congrArg Prod.fst heq, (congrArg Prod.snd heq).symm⟩

/-- C4: hybrid retrieval fetches `2*top_k` candidates from each signal and
returns the top `top_k` of the fusion; each fused score is exactly
`vector_weight * normalized_vector_score + bm25_weight * normalized_bm25_score`,
with `0.0` standing in for a signal that did not retrieve the document;
documents are deduplicated by identity; the output is sorted by descending
combined score; and `0.7 * 0.8 + 0.3 * 0.4 = 0.68` exactly. -/
theorem hybrid_fusion_spec :
    (∀ (r : HybridRetriever) (vsig bsig : Nat → List (Nat × ℚ)) (k : Nat),
      r.hybridEnabled = true → r.bm25Built = true →
      r.retrieve vsig bsig (some k) =
        (r.combineResults (vsig (k * 2)) (bsig (k * 2))).take k) ∧
    (∀ (r : HybridRetriever) (vr br : List (Nat × ℚ)) (d : Nat) (c : ℚ),
      (keysOf vr).Nodup → (keysOf br).Nodup → (d, c) ∈ r.combineResults vr br →
      c = fuseScore r.vectorWeight r.bm25Weight
        (lookupScore (withNormalized vr) d) (lookupScore (withNormalized br) d)) ∧
    (∀ (l : List (Nat × ℚ)) (d : Nat), d ∉ keysOf l →
      lookupScore (withNormalized l) d = 0) ∧
    (∀ (r : HybridRetriever) (vr br : List (Nat × ℚ)) (d : Nat),
      (keysOf vr).Nodup → (keysOf br).Nodup → (d ∈ keysOf vr ∨ d ∈ keysOf br) →
      d ∈ keysOf (r.combineResults vr br)) ∧
    (∀ (r : HybridRetriever) (vr br : List (Nat × ℚ)),
      (keysOf (r.combineResults vr br)).Nodup) ∧
    (∀ (r : HybridRetriever) (vr br : List (Nat × ℚ)),
      List.Sorted scoreGE (r.combineResults vr br)) ∧
    fuseScore (7/10) (3/10) (8/10) (4/10) = 68/100 := by
  refine ⟨fun r vsig bsig k he hb => ?_, fun r vr br d c hv hb hmem => ?_,
    fun l d hd => ?_, fun r vr br d hv hb hin => ?_, fun r vr br => ?_,
    fun r vr br => ?_, by norm_num [fuseScore]⟩
  · unfold HybridRetriever.retrieve
    rw [if_neg (by simp [he, hb])]
    rfl
  · rcases mem_combineResults hmem with ⟨e, hem, hkey, hc⟩
    have h1 : getEntry (buildScoreMap vr br) e.1 = some e :=
      getEntry_of_mem (nodup_keysEnt_buildScoreMap vr br) hem
    rw [getEntry_buildScoreMap vr br e.1 hv hb] at h1
    by_cases hin : e.1 ∈ keysOf vr ∨ e.1 ∈ keysOf br
    · rw [if_pos hin] at h1
      have he' := Option.some.inj h1
      subst hkey
      rw [hc, ← congrArg (fun x : ScoreEntry => x.2.1) he',
        ← congrArg (fun x : ScoreEntry => x.2.2) he']
    · rw [if_neg hin] at h1
      cases h1
  · have hnone : (withNormalized l).find? (fun q => q.1 = d) = none := by
      apply Option.not_isSome_iff_eq_none.mp
      rw [← mem_keys_iff_find?, keysOf_withNormalized]
      exact hd
    exact lookupScore_of_none hnone
  · have h1 := getEntry_buildScoreMap vr br d hv hb
    rw [if_pos hin] at h1
    have hm2 : (d, lookupScore (withNormalized vr) d,
        lookupScore (withNormalized br) d) ∈ buildScoreMap vr br :=
      List.mem_of_find?_eq_some h1
    have hkd : d ∈ keysEnt (buildScoreMap vr br) :=
      List.mem_map_of_mem (·.1) hm2
    simp only [HybridRetriever.combineResults]
    have hpk := (List.perm_insertionSort scoreGE
      ((buildScoreMap vr br).map fun e =>
        (e.1, fuseScore r.vectorWeight r.bm25Weight e.2.1 e.2.2))).map
      (fun p : Nat × ℚ => p.1)
    unfold keysOf
    rw [hpk.mem_iff]
    rw [← keysOf_map_fuse r (buildScoreMap vr br)] at hkd
    exact hkd
  · simp only [HybridRetriever.combineResults]
    have hpk := (List.perm_insertionSort scoreGE
      ((buildScoreMap vr br).map fun e =>
        (e.1, fuseScore r.vectorWeight r.bm25Weight e.2.1 e.2.2))).map
      (fun p : Nat × ℚ => p.1)
    unfold keysOf
    refine hpk.nodup_iff.mpr ?_
    rw [show ((buildScoreMap vr br).map fun e =>
        (e.1, fuseScore r.vectorWeight r.bm25Weight e.2.1 e.2.2)).map
          (fun p : Nat × ℚ => p.1) = keysEnt (buildScoreMap vr br) from
      keysOf_map_fuse r _]
    exact nodup_keysEnt_buildScoreMap vr br
  · simp only [HybridRetriever.combineResults]
    exact List.sorted_insertionSort scoreGE _

/-- C4 witness: the structural equation and the missing-signal default
evaluated on a concrete retriever and two one-element signals. -/
theorem hybrid_fusion_spec_witness :
    ({ hybridEnabled := true, vectorWeight := 7/10, bm25Weight := 3/10,
       topK := 3, bm25Built := true } : HybridRetriever).retrieve
        (fun _ => [(0, 1)]) (fun _ => [(1, 2)]) (some 2) =
      (({ hybridEnabled := true, vectorWeight := 7/10, bm25Weight := 3/10,
          topK := 3, bm25Built := true } : HybridRetriever).combineResults
        ((fun _ => [(0, 1)]) (2 * 2)) ((fun _ => [(1, 2)]) (2 * 2))).take 2 ∧
    lookupScore (withNormalized [((1 : Nat), (2 : ℚ))]) 0 = 0 :=
  ⟨hybrid_fusion_spec.1 _ (fun _ => [(0, 1)]) (fun _ => [(1, 2)]) 2 rfl rfl,
   hybrid_fusion_spec.2.2.1 [((1 : Nat), (2 : ℚ))] 0 (by decide)⟩

end StudyBuddy
